import Mathlib

/-!
Verification of the AxSyncPy parallel downloader (src/axsync-multithread.py).

The development shallowly embeds the script's pure logic:

* the byte-range partition computed in `download_file` (lines 42-44),
* the reassembly loop `combine_parts` (lines 27-32) over an explicit
  association-list filesystem,
* the directory-listing link filter and per-file download loop of
  `download_directory` (lines 65-93), with the HTTP calls abstracted as
  parameters (a fetched listing is either a connection error or a list of
  anchor href attributes; a per-file download is an `Except` value),
* the destination-folder derivation of `process_urls_from_file`
  (lines 104-106), with Python's `str.strip`/`str.split` semantics
  reproduced exactly (in particular `"".split("/") == [""]`).

Machine integers do not overflow in any of the modelled arithmetic
(Python integers are unbounded), so `Nat`/`Int` are used directly.
-/

namespace AxSync

/-! ### Byte-range partition (`download_file`, lines 42-44)

`chunk_size = total_size // num_threads`;
`ranges = [(i * chunk_size, (i + 1) * chunk_size - 1) for i in range(num_threads)]`;
`ranges[-1] = (ranges[-1][0], total_size - 1)`.

Offsets are modelled as integers because the end offset of a degenerate
range is `-1`.  Python's floor division on the non-negative `total_size`
and positive `num_threads` agrees with `Nat` division. -/

def chunk_size (total_size num_threads : ℕ) : ℕ := total_size / num_threads

/-- The list comprehension of line 43, before the last range is patched. -/
def initialRanges (total_size num_threads : ℕ) : List (ℤ × ℤ) :=
  (List.range num_threads).map fun i : ℕ =>
    ((i : ℤ) * (chunk_size total_size num_threads : ℤ),
     ((i : ℤ) + 1) * (chunk_size total_size num_threads : ℤ) - 1)

/-- Lines 43-44: the comprehension followed by
`ranges[-1] = (ranges[-1][0], total_size - 1)`.  (On an empty list the
Python assignment would raise `IndexError`; `num_threads ≥ 1` always holds
because the CLI default is 8.) -/
def ranges (total_size num_threads : ℕ) : List (ℤ × ℤ) :=
  match (initialRanges total_size num_threads).getLast? with
  | none => initialRanges total_size num_threads
  | some r => (initialRanges total_size num_threads).dropLast ++ [(r.1, (total_size : ℤ) - 1)]

lemma initialRanges_succ (total_size s : ℕ) :
    initialRanges total_size (s + 1) =
      ((List.range s).map fun i : ℕ =>
        ((i : ℤ) * (chunk_size total_size (s + 1) : ℤ),
         ((i : ℤ) + 1) * (chunk_size total_size (s + 1) : ℤ) - 1)) ++
      [((s : ℤ) * (chunk_size total_size (s + 1) : ℤ),
        ((s : ℤ) + 1) * (chunk_size total_size (s + 1) : ℤ) - 1)] := by
  unfold initialRanges
  rw [List.range_succ, List.map_append, List.map_cons, List.map_nil]

lemma ranges_eq_concat (total_size num_threads : ℕ) (r : ℤ × ℤ) (l : List (ℤ × ℤ))
    (h : initialRanges total_size num_threads = l ++ [r]) :
    ranges total_size num_threads = l ++ [(r.1, (total_size : ℤ) - 1)] := by
  unfold ranges
  rw [h, List.getLast?_concat, List.dropLast_concat]

lemma ranges_succ (total_size s : ℕ) :
    ranges total_size (s + 1) =
      ((List.range s).map fun i : ℕ =>
        ((i : ℤ) * (chunk_size total_size (s + 1) : ℤ),
         ((i : ℤ) + 1) * (chunk_size total_size (s + 1) : ℤ) - 1)) ++
      [((s : ℤ) * (chunk_size total_size (s + 1) : ℤ), (total_size : ℤ) - 1)] :=
  ranges_eq_concat _ _ _ _ (initialRanges_succ total_size s)

lemma ranges_length (total_size s : ℕ) :
    (ranges total_size (s + 1)).length = s + 1 := by
  rw [ranges_succ]
  simp

lemma ranges_getD_of_lt (total_size s i : ℕ) (hi : i < s) (d : ℤ × ℤ) :
    (ranges total_size (s + 1)).getD i d =
      ((i : ℤ) * (chunk_size total_size (s + 1) : ℤ),
       ((i : ℤ) + 1) * (chunk_size total_size (s + 1) : ℤ) - 1) := by
  rw [ranges_succ, List.getD_append _ _ _ i (by simpa using hi),
    List.getD_eq_getElem?_getD, List.getElem?_map, List.getElem?_range hi]
  rfl

lemma ranges_getD_last (total_size s : ℕ) (d : ℤ × ℤ) :
    (ranges total_size (s + 1)).getD s d =
      ((s : ℤ) * (chunk_size total_size (s + 1) : ℤ), (total_size : ℤ) - 1) := by
  rw [ranges_succ, List.getD_append_right _ _ _ s (by simp)]
  simp

lemma ranges_getD_start (total_size s j : ℕ) (hj : j < s + 1) (d : ℤ × ℤ) :
    ((ranges total_size (s + 1)).getD j d).1 =
      (j : ℤ) * (chunk_size total_size (s + 1) : ℤ) := by
  rcases Nat.lt_or_ge j s with h | h
  · rw [ranges_getD_of_lt total_size s j h]
  · have hj' : j = s := by omega
    subst hj'
    rw [ranges_getD_last]

/-- C2: the ranges computed by lines 42-44 form an exact partition of
`[0, total_size - 1]`: there are `num_threads` of them, the first starts at
offset 0, each subsequent range starts right after its predecessor ends,
any earlier range ends strictly before any later range starts (so the
ranges are pairwise non-overlapping and in ascending order), the last
range ends at `total_size - 1`, and the inclusive lengths sum to
`total_size`. -/
theorem ranges_exact_partition (total_size num_threads : ℕ) (ht : 1 ≤ num_threads) :
    (ranges total_size num_threads).length = num_threads ∧
    ((ranges total_size num_threads).getD 0 (0, 0)).1 = 0 ∧
    (∀ i, i + 1 < num_threads →
      ((ranges total_size num_threads).getD (i + 1) (0, 0)).1 =
        ((ranges total_size num_threads).getD i (0, 0)).2 + 1) ∧
    (∀ i j, i < j → j < num_threads →
      ((ranges total_size num_threads).getD i (0, 0)).2 <
        ((ranges total_size num_threads).getD j (0, 0)).1) ∧
    ((ranges total_size num_threads).getLast?.map Prod.snd =
      some ((total_size : ℤ) - 1)) ∧
    (((ranges total_size num_threads).map fun r => r.2 - r.1 + 1).sum =
      (total_size : ℤ)) := by
  obtain ⟨s, rfl⟩ : ∃ s, num_threads = s + 1 := ⟨num_threads - 1, by omega⟩
  refine ⟨ranges_length total_size s, ?_, ?_, ?_, ?_, ?_⟩
  · rw [ranges_getD_start total_size s 0 (by omega)]
    simp
  · intro i hi
    have hi' : i < s := by omega
    rw [ranges_getD_start total_size s (i + 1) hi, ranges_getD_of_lt total_size s i hi']
    push_cast
    ring
  · intro i j hij hj
    have hi' : i < s := by omega
    rw [ranges_getD_of_lt total_size s i hi', ranges_getD_start total_size s j hj]
    have hc : (0 : ℤ) ≤ (chunk_size total_size (s + 1) : ℤ) := Int.ofNat_nonneg _
    have hle : ((i : ℤ) + 1) ≤ (j : ℤ) := by exact_mod_cast hij
    have := mul_le_mul_of_nonneg_right hle hc
    omega
  · rw [ranges_succ, List.getLast?_concat]
    rfl
  · rw [ranges_succ, List.map_append, List.sum_append, List.map_map]
    have hfun : ((fun r : ℤ × ℤ => r.2 - r.1 + 1) ∘ fun i : ℕ =>
        ((i : ℤ) * (chunk_size total_size (s + 1) : ℤ),
         ((i : ℤ) + 1) * (chunk_size total_size (s + 1) : ℤ) - 1)) =
        fun _ : ℕ => (chunk_size total_size (s + 1) : ℤ) := by
      funext i
      simp only [Function.comp]
      ring
    rw [hfun, List.map_const', List.sum_replicate, List.length_range, nsmul_eq_mul,
      List.map_cons, List.map_nil, List.sum_cons, List.sum_nil]
    ring

/-- Witness for `ranges_exact_partition` at `total_size = 10`,
`num_threads = 3` (a size not divisible by the thread count). -/
theorem ranges_exact_partition_witness :
    1 ≤ 3 ∧
    ((ranges 10 3).length = 3 ∧
     ((ranges 10 3).getD 0 (0, 0)).1 = 0 ∧
     (∀ i, i + 1 < 3 →
       ((ranges 10 3).getD (i + 1) (0, 0)).1 = ((ranges 10 3).getD i (0, 0)).2 + 1) ∧
     (∀ i j, i < j → j < 3 →
       ((ranges 10 3).getD i (0, 0)).2 < ((ranges 10 3).getD j (0, 0)).1) ∧
     ((ranges 10 3).getLast?.map Prod.snd = some ((10 : ℤ) - 1)) ∧
     (((ranges 10 3).map fun r => r.2 - r.1 + 1).sum = (10 : ℤ))) :=
  ⟨by decide, ranges_exact_partition 10 3 (by decide)⟩

/-- C6: line 44 forces the last range's end offset to `total_size - 1`,
for every `total_size` and every `num_threads ≥ 1`, divisible or not. -/
theorem ranges_last_end_eq (total_size num_threads : ℕ) (ht : 1 ≤ num_threads) :
    (ranges total_size num_threads).getLast?.map Prod.snd =
      some ((total_size : ℤ) - 1) := by
  obtain ⟨s, rfl⟩ : ∃ s, num_threads = s + 1 := ⟨num_threads - 1, by omega⟩
  rw [ranges_succ, List.getLast?_concat]
  rfl

/-- Witness for `ranges_last_end_eq` at `total_size = 10`,
`num_threads = 3` (integer division leaves remainder 1). -/
theorem ranges_last_end_eq_witness :
    1 ≤ 3 ∧ (ranges 10 3).getLast?.map Prod.snd = some ((10 : ℤ) - 1) :=
  ⟨by decide, ranges_last_end_eq 10 3 (by decide)⟩

/-- C3 counterexample: with `total_size = 0` and `num_threads = 8` the code
produces eight degenerate ranges `(0, -1)`, not a single one. -/
theorem ranges_zero_size_counterexample :
    ranges 0 8 = List.replicate 8 ((0 : ℤ), (-1 : ℤ)) ∧
    (ranges 0 8).length ≠ 1 := by
  constructor
  · rfl
  · decide

/-- C3 (amended): with `num_threads = 1` the partition is the single
whole-file range `(0, total_size - 1)`, and the division is by
`num_threads ≥ 1`, never by zero; with `total_size = 0` the partition is
`num_threads` degenerate zero-length ranges `(0, -1)` (not a single
range). -/
theorem ranges_degenerate_cases (total_size num_threads : ℕ) (ht : 1 ≤ num_threads) :
    ranges total_size 1 = [((0 : ℤ), (total_size : ℤ) - 1)] ∧
    ranges 0 num_threads = List.replicate num_threads ((0 : ℤ), (-1 : ℤ)) := by
  obtain ⟨s, rfl⟩ : ∃ s, num_threads = s + 1 := ⟨num_threads - 1, by omega⟩
  constructor
  · rw [ranges_succ total_size 0]
    simp
  · rw [ranges_succ 0 s]
    have h0 : chunk_size 0 (s + 1) = 0 := by simp [chunk_size]
    rw [h0]
    have hmap : ((List.range s).map fun i : ℕ =>
        ((i : ℤ) * ((0 : ℕ) : ℤ), ((i : ℤ) + 1) * ((0 : ℕ) : ℤ) - 1)) =
        List.replicate s ((0 : ℤ), (-1 : ℤ)) := by
      rw [show (fun i : ℕ =>
          ((i : ℤ) * ((0 : ℕ) : ℤ), ((i : ℤ) + 1) * ((0 : ℕ) : ℤ) - 1)) =
          fun _ : ℕ => ((0 : ℤ), (-1 : ℤ)) from funext fun i => by norm_num]
      rw [List.map_const', List.length_range]
    rw [hmap]
    simp [List.replicate_succ']

/-- Witness for `ranges_degenerate_cases` at `total_size = 5`,
`num_threads = 8`. -/
theorem ranges_degenerate_cases_witness :
    1 ≤ 8 ∧
    (ranges 5 1 = [((0 : ℤ), ((5 : ℕ) : ℤ) - 1)] ∧
     ranges 0 8 = List.replicate 8 ((0 : ℤ), (-1 : ℤ))) :=
  ⟨by decide, ranges_degenerate_cases 5 8 (by decide)⟩

/-! ### Python string primitives

Executable models of the Python string operations the script relies on,
with Python's exact semantics (`startswith`, `endswith`, `strip`, and
`split` with an explicit separator — note `"".split("/") == [""]`). -/

/-- Python `s.startswith(p)`. -/
def pyStartsWith (s p : String) : Bool := p.data.isPrefixOf s.data

/-- Python `s.endswith(p)`. -/
def pyEndsWith (s p : String) : Bool := p.data.isSuffixOf s.data

/-- Python `s.strip(c)` for a single strip character: remove every leading
and trailing occurrence of `c`. -/
def stripChar (c : Char) (s : String) : String :=
  ⟨((s.data.dropWhile fun x => x = c).reverse.dropWhile fun x => x = c).reverse⟩

/-- Python `s.split(c)` with an explicit single-character separator.
Splitting the empty string yields `[""]`, and adjacent separators yield
empty segments, exactly as in Python. -/
def splitChar (c : Char) : List Char → List (List Char)
  | [] => [[]]
  | x :: xs =>
    match splitChar c xs, decide (x = c) with
    | r, true => [] :: r
    | [], false => [[x]]
    | seg :: segs, false => (x :: seg) :: segs

/-- Python `s.split(c)` on a `String`. -/
def pySplit (s : String) (c : Char) : List String :=
  (splitChar c s.data).map fun l => ⟨l⟩

/-! ### Directory listing and batch loop (`download_directory`,
`process_urls_from_file`, lines 65-116)

The two HTTP-facing collaborators are abstracted as parameters:

* the listing fetch (`requests.get` + BeautifulSoup, lines 68-77) either
  raises a connection error or produces the list of `href` attributes of
  the page's anchors (`link.get('href')` is `None` when an anchor has no
  `href`, hence `Option String`);
* the per-file download (`download_file`, line 91) either succeeds or
  raises with a message, hence `Except String Unit`.

Everything else — the filter on lines 80-81, the URL concatenation on
line 84, the `try/except` on lines 90-93, and the batch loop on
lines 102-116 — is modelled directly. -/

/-- Result of fetching the listing page: `connError` models `requests.get`
raising (unreachable host); `ok` carries the anchors' href attributes. -/
inductive ListingFetch where
  | ok (anchors : List (Option String))
  | connError

/-- The skip condition of line 80:
`if not file_name or file_name.startswith('?') or file_name.endswith('/')
or file_name == '../': continue`. -/
def skipLink (href : Option String) : Bool :=
  match href with
  | none => true
  | some file_name =>
      file_name == "" || pyStartsWith file_name "?" ||
        pyEndsWith file_name "/" || file_name == "../"

/-- The file names the loop of lines 76-81 does not skip, in page order. -/
def discoveredFiles (anchors : List (Option String)) : List String :=
  anchors.filterMap fun href => if skipLink href then none else href

/-- Modelled from the spec (for the C9 refinement comparison): the links a
listing yields are exactly the anchor hrefs that are non-empty, do not
start with `?`, do not end with `/`, and are not `../`. -/
def specKeep (file_name : String) : Bool :=
  !(file_name == "") && !(pyStartsWith file_name "?") &&
    !(pyEndsWith file_name "/") && !(file_name == "../")

/-- Modelled from the spec: the filter of C9 as the spec words it. -/
def specDiscoveredFiles (anchors : List (Option String)) : List String :=
  anchors.filterMap fun href => href.bind fun s => if specKeep s then some s else none

/-- Outcome of one iteration of the loop body (lines 83-93): either the
download succeeded or the exception was caught and logged. Both record
the full file URL (line 84) and the file name. -/
inductive FileOutcome where
  | downloaded (file_url : String) (file_name : String)
  | failed (file_url : String) (file_name : String) (msg : String)
deriving DecidableEq

/-- Lines 83-93 for one discovered file: build `file_url = base_url +
file_name` (plain concatenation, line 84), call the per-file download
inside `try`, and turn an exception into a logged failure. -/
def fileStep (base_url : String) (dl : String → Except String Unit)
    (file_name : String) : FileOutcome :=
  match dl (base_url ++ file_name) with
  | Except.ok _ => FileOutcome.downloaded (base_url ++ file_name) file_name
  | Except.error e => FileOutcome.failed (base_url ++ file_name) file_name e

/-- `download_directory` (lines 65-93): fetch the listing (an unhandled
connection error propagates as `Except.error`), then run the per-file
loop over every discovered file. -/
def download_directory (base_url : String) (fetch : ListingFetch)
    (dl : String → Except String Unit) : Except Unit (List FileOutcome) :=
  match fetch with
  | ListingFetch.connError => Except.error ()
  | ListingFetch.ok anchors =>
      Except.ok ((discoveredFiles anchors).map (fileStep base_url dl))

/-- The batch loop of `process_urls_from_file` (lines 102-116): process
each URL in turn; an exception escaping `download_directory` is uncaught
and aborts the remaining URLs. -/
def process_urls (urls : List String) (fetch : String → ListingFetch)
    (dl : String → Except String Unit) :
    Except Unit (List (String × List FileOutcome)) :=
  match urls with
  | [] => Except.ok []
  | url :: rest =>
    match download_directory url (fetch url) dl with
    | Except.error e => Except.error e
    | Except.ok outs =>
      match process_urls rest fetch dl with
      | Except.error e => Except.error e
      | Except.ok results => Except.ok ((url, outs) :: results)

/-- Destination-folder derivation (lines 104-106):
`path_segments = parsed_url.path.strip('/').split('/')`;
`folder_name = path_segments[-1] if path_segments else "default_folder"`.
The input is the path component already extracted by `urlparse`. -/
def folder_name_of (path : String) : String :=
  match (pySplit (stripChar '/' path) '/').getLast? with
  | some seg => seg
  | none => "default_folder"

/-- C9: the filter of lines 76-81 yields exactly the anchor hrefs that are
non-empty, do not start with `?`, do not end with `/`, and are not `../`
(the spec-worded filter `specDiscoveredFiles`); on the spec's example page
only `file1.zip` survives. -/
theorem discoveredFiles_filter_spec :
    (∀ anchors, discoveredFiles anchors = specDiscoveredFiles anchors) ∧
    discoveredFiles
      [some "file1.zip", some "../", some "?sort=name", some "subdir/"] =
      ["file1.zip"] := by
  constructor
  · intro anchors
    induction anchors with
    | nil => rfl
    | cons href rest ih =>
      cases href with
      | none => simpa [discoveredFiles, specDiscoveredFiles, skipLink] using ih
      | some s =>
        have hns : skipLink (some s) = !(specKeep s) := by
          simp only [skipLink, specKeep, Bool.not_and, Bool.not_not]
        simp only [discoveredFiles, specDiscoveredFiles, List.filterMap_cons] at ih ⊢
        rw [hns]
        cases hk : specKeep s <;> simp [hk, ih]
  · decide

/-- C4 counterexample: a listing page whose fetch raises a connection
error (an unreachable host) makes `download_directory` propagate the
error, and the batch loop aborts before the second URL is processed —
contradicting "without raising an error out of the batch loop". -/
theorem unreachable_listing_aborts_batch :
    download_directory "http://a/" ListingFetch.connError
      (fun _ => Except.ok ()) = Except.error () ∧
    process_urls ["http://a/", "http://b/"] (fun _ => ListingFetch.connError)
      (fun _ => Except.ok ()) = Except.error () :=
  ⟨rfl, rfl⟩

/-- C4 (amended): a malformed listing page — one whose anchors yield no
qualifying file links — produces zero discovered files and zero downloads
without an error; but a listing fetch that raises (unreachable host)
propagates out of `download_directory` unhandled. -/
theorem listing_failure_behavior (base_url : String)
    (dl : String → Except String Unit) :
    (∀ anchors, discoveredFiles anchors = [] →
      download_directory base_url (ListingFetch.ok anchors) dl = Except.ok []) ∧
    download_directory base_url ListingFetch.connError dl = Except.error () := by
  constructor
  · intro anchors h
    simp [download_directory, h]
  · rfl

/-- Witness for `listing_failure_behavior`: a page whose only anchors are
the parent link and a query link yields no downloads, while a connection
error propagates. -/
theorem listing_failure_behavior_witness :
    discoveredFiles [some "../", some "?sort=name", none] = [] ∧
    download_directory "http://a/" (ListingFetch.ok [some "../", some "?sort=name", none])
      (fun _ => Except.ok ()) = Except.ok [] ∧
    download_directory "http://a/" ListingFetch.connError
      (fun _ => Except.ok ()) = Except.error () :=
  ⟨by decide,
   (listing_failure_behavior "http://a/" (fun _ => Except.ok ())).1 _ (by decide),
   (listing_failure_behavior "http://a/" (fun _ => Except.ok ())).2⟩

/-- C7: with every listing fetch succeeding, the batch loop returns
normally for every per-file download function `dl` — including ones that
fail on any subset of files: each failure is caught at the per-file call
(lines 90-93) and recorded as a logged `FileOutcome.failed`, and every
discovered file of every URL still gets processed. -/
theorem file_failures_never_abort_batch (urls : List String)
    (anchors : String → List (Option String)) (dl : String → Except String Unit) :
    process_urls urls (fun u => ListingFetch.ok (anchors u)) dl =
      Except.ok (urls.map fun u =>
        (u, (discoveredFiles (anchors u)).map (fileStep u dl))) := by
  induction urls with
  | nil => rfl
  | cons u rest ih =>
    simp [process_urls, download_directory, ih]

/-- The file URL recorded in an outcome (line 84). -/
def urlOf : FileOutcome → String
  | FileOutcome.downloaded u _ => u
  | FileOutcome.failed u _ _ => u

/-- The file name recorded in an outcome. -/
def nameOf : FileOutcome → String
  | FileOutcome.downloaded _ n => n
  | FileOutcome.failed _ n _ => n

/-- C10: every outcome produced by `download_directory` uses the plain
character-for-character concatenation `base_url ++ file_name` as the
download URL — no separator, joining, or normalization. -/
theorem file_url_plain_concat (base_url : String)
    (anchors : List (Option String)) (dl : String → Except String Unit)
    (outs : List FileOutcome)
    (h : download_directory base_url (ListingFetch.ok anchors) dl = Except.ok outs) :
    ∀ o ∈ outs, urlOf o = base_url ++ nameOf o := by
  have houts : outs = (discoveredFiles anchors).map (fileStep base_url dl) := by
    simpa [download_directory] using h.symm
  subst houts
  intro o ho
  rcases List.mem_map.1 ho with ⟨f, hf, rfl⟩
  cases hdl : dl (base_url ++ f) <;> simp [fileStep, hdl, urlOf, nameOf]

/-- Witness for `file_url_plain_concat`: a base URL not ending in `/`
fuses with the file name (`"http://host/dir" ++ "file.zip" =
"http://host/dirfile.zip"`). -/
theorem file_url_plain_concat_witness :
    download_directory "http://host/dir" (ListingFetch.ok [some "file.zip"])
      (fun _ => Except.ok ()) =
      Except.ok [FileOutcome.downloaded "http://host/dirfile.zip" "file.zip"] ∧
    ∀ o ∈ [FileOutcome.downloaded "http://host/dirfile.zip" "file.zip"],
      urlOf o = "http://host/dir" ++ nameOf o :=
  ⟨rfl, file_url_plain_concat "http://host/dir" [some "file.zip"]
    (fun _ => Except.ok ()) _ rfl⟩

/-- C5: evaluation of the folder-name derivation at the failing input.
For the path `/data/archive/` (URL `https://example.com/data/archive/`)
the code yields `archive` as claimed; but for an empty path (a URL with
no path segments, e.g. `https://example.com`) Python's
`"".strip('/').split('/')` is `[""]`, a non-empty list, so the
`"default_folder"` fallback is dead code and the folder name is the empty
string, contradicting the claim. -/
theorem empty_path_folder_name_is_empty :
    folder_name_of "/data/archive/" = "archive" ∧
    folder_name_of "" = "" ∧
    folder_name_of "" ≠ "default_folder" ∧
    pySplit (stripChar '/' "") '/' = [""] := by
  refine ⟨by decide, by decide, by decide, by decide⟩

/-! ### Reassembly (`combine_parts`, lines 27-32; `download_file`,
lines 47-61)

The on-disk state is an association-list filesystem mapping file names
to byte contents (bytes as `ℕ`).  `combine_parts` opens the destination
for writing (truncating it), then for each name in `parts` reads the
artifact in full, appends its bytes to the destination, and deletes the
artifact (`os.remove`, line 32); a missing artifact would make Python's
`open` raise, modelled as `none`.

In `download_file`, the `parts` list is built by appending
`future.result()` as each future completes (`as_completed`, lines 55-57),
so the list `combine_parts` receives is in completion order, not ordinal
order. -/

/-- A filesystem: file names mapped to byte contents. -/
abbrev FS := List (String × List ℕ)

/-- Read a file in full (`open(path, 'rb').read()`); `none` if absent. -/
def readFile (fs : FS) (name : String) : Option (List ℕ) :=
  (fs.find? fun e => e.1 == name).map fun e => e.2

/-- Delete a file (`os.remove`). -/
def removeFile (fs : FS) (name : String) : FS :=
  fs.filter fun e => !(e.1 == name)

/-- Create or overwrite a file with the given contents. -/
def writeFile (fs : FS) (name : String) (content : List ℕ) : FS :=
  (name, content) :: removeFile fs name

/-- The loop of lines 29-32: read each part, append its bytes to the
open destination handle (`acc`), and delete the part. -/
def combineLoop : FS → List ℕ → List String → Option (FS × List ℕ)
  | fs, acc, [] => some (fs, acc)
  | fs, acc, part :: parts =>
    match readFile fs part with
    | none => none
    | some content => combineLoop (removeFile fs part) (acc ++ content) parts

/-- `combine_parts` (lines 27-32): open `file_name` for writing
(truncation), run the loop, and leave the accumulated bytes as the
destination's contents when the handle closes. -/
def combine_parts (file_name : String) (parts : List String) (fs : FS) : Option FS :=
  (combineLoop (writeFile fs file_name []) [] parts).map
    fun r => writeFile r.1 file_name r.2

/-- Temporary artifact naming (line 19):
`part_file = f"(file_name).part(part_number)"`. -/
def part_file_name (file_name : String) (part_number : ℕ) : String :=
  file_name ++ ".part" ++ toString part_number

/-- The artifacts on disk after all chunk futures complete: chunk `i`'s
bytes stored under `part_file_name file_name i`. -/
def chunkArtifacts (file_name : String) (chunks : List (List ℕ)) : FS :=
  (List.range chunks.length).map fun i => (part_file_name file_name i, chunks.getD i [])

/-- Lines 55-61 of `download_file`: the `parts` list is the part files in
the order the futures completed (`completion_order` is the sequence of
chunk indices in completion order); `combine_parts` then concatenates
them in exactly that list order, and the destination's final bytes are
read back. -/
def reassembled (file_name : String) (chunks : List (List ℕ))
    (completion_order : List ℕ) : Option (List ℕ) :=
  (combine_parts file_name (completion_order.map (part_file_name file_name))
      (chunkArtifacts file_name chunks)).bind
    fun fs => readFile fs file_name

lemma readFile_eq_none_iff (fs : FS) (name : String) :
    readFile fs name = none ↔ ∀ e ∈ fs, ¬(e.1 == name) = true := by
  rw [readFile, Option.map_eq_none', List.find?_eq_none]

lemma readFile_removeFile_self (fs : FS) (name : String) :
    readFile (removeFile fs name) name = none := by
  rw [readFile_eq_none_iff]
  intro e he
  have := (List.mem_filter.1 he).2
  simp only [Bool.not_eq_eq_eq_not, Bool.not_true] at this
  simp [this]

lemma readFile_removeFile_of_none (fs : FS) (name other : String)
    (h : readFile fs name = none) :
    readFile (removeFile fs other) name = none := by
  rw [readFile_eq_none_iff] at h ⊢
  intro e he
  exact h e (List.mem_filter.1 he).1

lemma combineLoop_preserves_none (parts : List String) :
    ∀ (fs : FS) (acc : List ℕ) (fs' : FS) (out : List ℕ) (name : String),
      readFile fs name = none →
      combineLoop fs acc parts = some (fs', out) →
      readFile fs' name = none := by
  induction parts with
  | nil =>
    intro fs acc fs' out name hn h
    simp only [combineLoop, Option.some.injEq, Prod.mk.injEq] at h
    rw [← h.1]
    exact hn
  | cons part rest ih =>
    intro fs acc fs' out name hn h
    simp only [combineLoop] at h
    cases hr : readFile fs part with
    | none => rw [hr] at h; exact absurd h (by simp)
    | some content =>
      rw [hr] at h
      exact ih _ _ _ _ _ (readFile_removeFile_of_none fs name part hn) h

lemma combineLoop_removes (parts : List String) :
    ∀ (fs : FS) (acc : List ℕ) (fs' : FS) (out : List ℕ),
      combineLoop fs acc parts = some (fs', out) →
      ∀ p ∈ parts, readFile fs' p = none := by
  induction parts with
  | nil => intro fs acc fs' out h p hp; exact absurd hp (by simp)
  | cons part rest ih =>
    intro fs acc fs' out h p hp
    simp only [combineLoop] at h
    cases hr : readFile fs part with
    | none => rw [hr] at h; exact absurd h (by simp)
    | some content =>
      rw [hr] at h
      rcases List.mem_cons.1 hp with rfl | hp'
      · exact combineLoop_preserves_none rest _ _ _ _ _
          (readFile_removeFile_self fs p) h
      · exact ih _ _ _ _ h p hp'

lemma readFile_writeFile_of_none (fs : FS) (name other : String)
    (content : List ℕ) (hne : other ≠ name)
    (h : readFile fs other = none) :
    readFile (writeFile fs name content) other = none := by
  rw [readFile_eq_none_iff] at h ⊢
  intro e he
  rcases List.mem_cons.1 he with rfl | he'
  · simp [Ne.symm hne]
  · exact h e (List.mem_filter.1 he').1

/-- C8: reassembly is destructive.  If `combine_parts` completes on a
list of artifact names (none of which is the destination itself, as is
always the case for the `.partN` names), every artifact in the list has
been deleted from the resulting filesystem. -/
theorem combine_parts_removes_artifacts (file_name : String)
    (parts : List String) (fs fs' : FS)
    (hne : ∀ p ∈ parts, p ≠ file_name)
    (h : combine_parts file_name parts fs = some fs') :
    ∀ p ∈ parts, readFile fs' p = none := by
  unfold combine_parts at h
  cases hcl : combineLoop (writeFile fs file_name []) [] parts with
  | none => rw [hcl] at h; exact absurd h (by simp)
  | some r =>
    rw [hcl] at h
    simp only [Option.map_some', Option.some.injEq] at h
    intro p hp
    have h1 : readFile r.1 p = none := combineLoop_removes parts _ _ _ _ hcl p hp
    rw [← h]
    exact readFile_writeFile_of_none r.1 file_name p r.2 (hne p hp) h1

/-- Witness for `combine_parts_removes_artifacts`: combining the two
artifacts of `out` deletes both part files and leaves only the
destination. -/
theorem combine_parts_removes_artifacts_witness :
    (∀ p ∈ ["out.part0", "out.part1"], p ≠ "out") ∧
    combine_parts "out" ["out.part0", "out.part1"]
      [("out.part0", [1]), ("out.part1", [2])] = some [("out", [1, 2])] ∧
    ∀ p ∈ ["out.part0", "out.part1"], readFile [("out", [1, 2])] p = none :=
  ⟨by decide, by decide,
    combine_parts_removes_artifacts "out" ["out.part0", "out.part1"]
      [("out.part0", [1]), ("out.part1", [2])] [("out", [1, 2])]
      (by decide) (by decide)⟩

/-- C1 is false on the code: `download_file` appends part files to
`parts` in the order `as_completed` yields the futures (lines 55-57) and
`combine_parts` concatenates that list as given, so the final bytes
depend on the completion order.  With chunks `[7]` and `[9]`, the
completion order `[1, 0]` (a permutation of the ordinal order) produces
`[9, 7]`, not the ordinal-index concatenation `[7, 9]`. -/
theorem reassembly_depends_on_completion_order :
    List.Perm [1, 0] (List.range 2) ∧
    reassembled "f" [[7], [9]] [0, 1] = some [7, 9] ∧
    reassembled "f" [[7], [9]] [1, 0] = some [9, 7] ∧
    ([[7], [9]] : List (List ℕ)).flatten = [7, 9] ∧
    reassembled "f" [[7], [9]] [1, 0] ≠ some ([[7], [9]] : List (List ℕ)).flatten :=
  ⟨by decide, by decide, by decide, by decide, by decide⟩

end AxSync
